import Mathlib

/-!
Verification of the grocy-import pipeline (`grocy_import.py`).

Shallow embedding: Python strings are modelled as `List Char`; Python
dictionaries of interest are modelled as structures with `Option` fields
(`none` = key absent or value `None`); the fetch step and the remote Grocy
API are modelled as oracles supplied as parameters, so that theorems
quantify over every possible run.  Remote rejections are modelled as HTTP
error outcomes, matching the `requests.HTTPError` class that the code
distinguishes.
-/

namespace GrocyImport

/-- Python strings, modelled as lists of characters. -/
abbrev Str := List Char

/-- Python `str.strip()`: remove surrounding whitespace. -/
def strip (s : Str) : Str :=
  ((s.dropWhile Char.isWhitespace).reverse.dropWhile Char.isWhitespace).reverse

/-- Auxiliary for Python `str.title()`: the Bool records whether the
previous character was a cased (alphabetic) character. -/
def titleAux : Bool → Str → Str
  | _, [] => []
  | prevCased, c :: cs =>
    if c.isAlpha then
      (if prevCased then c.toLower else c.toUpper) :: titleAux true cs
    else
      c :: titleAux false cs

/-- Python `str.title()` (over ASCII letters). -/
def title (s : Str) : Str := titleAux false s

/-- Python `s.split(":")[-1]`: the segment after the last colon
(the whole string when there is no colon). -/
def afterLastColon (s : Str) : Str :=
  ((s.reverse.takeWhile (fun c => c ≠ ':')).reverse)

/-- Python truthiness of an optional string: `None` and `""` are falsy. -/
def truthy : Option Str → Bool
  | none => false
  | some s => !s.isEmpty

/-- Python `a or b` on two optional strings, collapsing a falsy result
to the empty string (as in `a or b or ""`). -/
def firstTruthy (a b : Option Str) : Str :=
  if truthy a then a.getD [] else if truthy b then b.getD [] else []

/-- `RawProductRecord`: one raw search result from the OpenFoodFacts API.
Fields mirror the dictionary keys read by the source; `none` models a
missing key. -/
structure RawProduct where
  product_name_de : Option Str
  product_name : Option Str
  categories_tags : List Str
  code : Option Str
  brands : Option Str
  stores : Option Str
  quantity : Option Str
deriving DecidableEq, Repr

/-- `CanonicalRow`: the dictionary built by `product_to_row`. -/
structure Row where
  name : Str
  barcode : Str
  brand : Str
  store : Str
  quantity : Str
  cat : Str
deriving DecidableEq, Repr

/-- The fixed category list of the source (`CATEGORIES`). -/
def CATEGORIES : List Str :=
  [("Getränke" : String).toList, ("Tiefkühlprodukte" : String).toList,
   ("Backzutaten" : String).toList, ("Grundnahrungsmittel" : String).toList,
   ("Pasta und Reis" : String).toList, ("Konserven" : String).toList,
   ("Obst" : String).toList, ("Gemüse" : String).toList,
   ("Internationale Küche" : String).toList, ("Hygiene" : String).toList,
   ("Drogerie" : String).toList, ("Putzmittel" : String).toList,
   ("Haushaltswaren" : String).toList]

/-- `re.fullmatch(r"\d{8}|\d{12,14}", t)`: all characters are digits and
the length is exactly 8 or between 12 and 14. -/
def matchesBarcodeRe (t : Str) : Bool :=
  t.all Char.isDigit && decide (t.length = 8 ∨ (12 ≤ t.length ∧ t.length ≤ 14))

/-- `valid_barcode(code)`: `bool(code and re.fullmatch(r"\d{8}|\d{12,14}", code.strip()))`. -/
def valid_barcode : Option Str → Bool
  | none => false
  | some c => !c.isEmpty && matchesBarcodeRe (strip c)

/-- The tag fallback of `normalize_name`:
`tags[0].split(":")[-1].replace("-", " ").title()`. -/
def humanizeTag (t : Str) : Str :=
  title ((afterLastColon t).map (fun c => if c = '-' then ' ' else c))

/-- `normalize_name(p)` from the source. -/
def normalize_name (p : RawProduct) : Str :=
  let n := strip (firstTruthy p.product_name_de p.product_name)
  let n :=
    if n.isEmpty then
      match p.categories_tags with
      | [] => n
      | t :: _ => humanizeTag t
    else n
  if n.isEmpty then ("Unbenanntes Produkt" : String).toList else n

/-- `(x or "").split(",")[0].strip()`. -/
def firstCommaToken (x : Option Str) : Str :=
  strip ((x.getD []).takeWhile (fun c => c ≠ ','))

/-- `product_to_row(p, category)` from the source: rejects the record when
the barcode is invalid, otherwise builds the canonical row. -/
def product_to_row (p : RawProduct) (category : Option Str) : Option Row :=
  if valid_barcode p.code then
    some
      { name := normalize_name p
        barcode := strip (p.code.getD [])
        brand := firstCommaToken p.brands
        store := firstCommaToken p.stores
        quantity := (p.quantity.getD [])
        cat :=
          match category with
          | some c => if c.isEmpty then ("Unbekannt" : String).toList else c
          | none => ("Unbekannt" : String).toList }
  else none

/-- Auxiliary for `dedupe`: `seen` is the set of already-seen barcodes. -/
def dedupeAux (seen : List Str) : List Row → List Row
  | [] => []
  | r :: rs =>
    if r.barcode ≠ [] ∧ r.barcode ∉ seen then
      r :: dedupeAux (r.barcode :: seen) rs
    else
      dedupeAux seen rs

/-- `dedupe(rows)` from the source: keep the first row for each non-empty
barcode, in order. -/
def dedupe (rows : List Row) : List Row := dedupeAux [] rows

/-- The per-category requested count of `main`:
`per_cat = max(10, limit // len(CATEGORIES))`. -/
def per_cat (limit : Nat) : Nat := max 10 (limit / CATEGORIES.length)

/-! ### The Grocy API model

`create_product` posts a product payload and then the barcode association,
catching `requests.HTTPError` around both steps.  The remote side is an
oracle `Remote` deciding the outcome of each POST (`none` / `false` = the
request is rejected with an HTTP error status); the remote inventory state
records which entities the successful POSTs created. -/

/-- The JSON payload of `POST /api/objects/products` built by `create_product`. -/
structure ProductPayload where
  name : Str
  description : Str
  qu_id_stock : Nat
  qu_id_purchase : Nat
  location_id : Nat
  min_stock_amount : Nat
deriving DecidableEq, Repr

/-- Remote inventory state: products created so far (id, payload) and
barcode associations created so far (product id, barcode). -/
structure RemoteState where
  products : List (Nat × ProductPayload)
  barcodeLinks : List (Nat × Str)
deriving DecidableEq, Repr

/-- Oracle for the remote Grocy instance: outcome of each POST, plus the
unit and location ids returned by `ensure_unit` / `ensure_location`. -/
structure Remote where
  postProductOutcome : RemoteState → ProductPayload → Option Nat
  postBarcodeOutcome : RemoteState → Nat → Str → Bool
  quId : Nat
  locId : Nat

/-- `POST /api/objects/products`: on success the product is created
remotely and its id returned; on rejection an HTTP error is raised
(modelled as `Except.error`). -/
def postProduct (api : Remote) (st : RemoteState) (payload : ProductPayload) :
    Except Unit (RemoteState × Nat) :=
  match api.postProductOutcome st payload with
  | none => .error ()
  | some pid => .ok ({ st with products := st.products ++ [(pid, payload)] }, pid)

/-- `POST /api/objects/product_barcodes`. -/
def postBarcode (api : Remote) (st : RemoteState) (pid : Nat) (bc : Str) :
    Except Unit RemoteState :=
  if api.postBarcodeOutcome st pid bc then
    .ok { st with barcodeLinks := st.barcodeLinks ++ [(pid, bc)] }
  else .error ()

/-- The payload built by `create_product`:
`description = f"{row.brand} {row.quantity}".strip()`. -/
def productPayload (api : Remote) (r : Row) : ProductPayload :=
  { name := r.name
    description := strip (r.brand ++ ' ' :: r.quantity)
    qu_id_stock := api.quId
    qu_id_purchase := api.quId
    location_id := api.locId
    min_stock_amount := 0 }

/-- `GrocyAPI.create_product`: two-step create-then-associate; a caught
HTTP error in either step yields `none`, keeping whatever remote state
the completed steps produced. -/
def create_product (api : Remote) (st : RemoteState) (r : Row) :
    RemoteState × Option Nat :=
  match postProduct api st (productPayload api r) with
  | .error _ => (st, none)
  | .ok (st1, pid) =>
    match postBarcode api st1 pid r.barcode with
    | .error _ => (st1, none)
    | .ok st2 => (st2, some pid)

/-- Python truthiness of the optional product id tested by
`if api.create_product(...)`. -/
def pidTruthy : Option Nat → Bool
  | none => false
  | some n => n != 0

/-! ### The orchestrator (`main`) -/

/-- One `{new, skip, imported}` counter triple. -/
structure Stats where
  new : Nat
  skip : Nat
  imported : Nat
deriving DecidableEq, Repr

def Stats.zero : Stats := ⟨0, 0, 0⟩

/-- State of the fetch loop of `main`: aggregate counters, per-category
counters (a total map, `defaultdict`), and the accumulated rows. -/
structure RunState where
  statsTotal : Stats
  statsCat : Str → Stats
  all_rows : List Row

/-- Point update of the per-category counter map. -/
def updateCat (f : Str → Stats) (c : Str) (g : Stats → Stats) : Str → Stats :=
  fun x => if x = c then g (f x) else f x

/-- The body of the inner loop of `main` for one fetched record:
invalid rows bump only the per-category skip counter; remote-known rows
bump both skip counters; the rest are appended and bump both new
counters. -/
def processProduct (existing : List Str) (cat : Str) (p : RawProduct)
    (s : RunState) : RunState :=
  match product_to_row p (some cat) with
  | none =>
    { s with statsCat := updateCat s.statsCat cat (fun t => { t with skip := t.skip + 1 }) }
  | some r =>
    if r.barcode ∈ existing then
      { s with
        statsCat := updateCat s.statsCat cat (fun t => { t with skip := t.skip + 1 })
        statsTotal := { s.statsTotal with skip := s.statsTotal.skip + 1 } }
    else
      { s with
        all_rows := s.all_rows ++ [r]
        statsCat := updateCat s.statsCat cat (fun t => { t with new := t.new + 1 })
        statsTotal := { s.statsTotal with new := s.statsTotal.new + 1 } }

/-- Process every record fetched for one category. -/
def processCategory (existing : List Str) (limit : Nat)
    (fetch : Str → Nat → List RawProduct) (s : RunState) (cat : Str) : RunState :=
  (fetch cat (per_cat limit)).foldl (fun s p => processProduct existing cat p s) s

/-- The whole fetch loop of `main`, over all categories. -/
def fetchPhase (existing : List Str) (limit : Nat)
    (fetch : Str → Nat → List RawProduct) : RunState :=
  CATEGORIES.foldl (processCategory existing limit fetch)
    ⟨Stats.zero, fun _ => Stats.zero, []⟩

/-- The import loop of `main`: per row, create the product; on a truthy
returned id bump both imported counters, otherwise leave the counters
unchanged; either way continue with the remaining rows. -/
def importRows (api : Remote) : List Row → RemoteState → Stats → (Str → Stats) →
    RemoteState × Stats × (Str → Stats)
  | [], st, total, cats => (st, total, cats)
  | r :: rs, st, total, cats =>
    let res := create_product api st r
    if pidTruthy res.2 then
      importRows api rs res.1
        { total with imported := total.imported + 1 }
        (updateCat cats r.cat (fun t => { t with imported := t.imported + 1 }))
    else
      importRows api rs res.1 total cats

/-- The observable result of one run. -/
structure RunResult where
  finalRows : List Row
  statsTotal : Stats
  statsCat : Str → Stats
  remote : RemoteState

/-- `main` after configuration loading: fetch phase over all categories,
then `all_rows = dedupe(all_rows)[:limit]`, then the optional import
phase (`if do_import and all_rows`). -/
def runMain (existing : List Str) (limit : Nat)
    (fetch : Str → Nat → List RawProduct) (doImport : Bool)
    (api : Remote) (init : RemoteState) : RunResult :=
  let s := fetchPhase existing limit fetch
  let rows := (dedupe s.all_rows).take limit
  if doImport && !rows.isEmpty then
    let res := importRows api rows init s.statsTotal s.statsCat
    ⟨rows, res.2.1, res.2.2, res.1⟩
  else
    ⟨rows, s.statsTotal, s.statsCat, init⟩

/-! ### Derived specifications used in the theorem statements -/

/-- The rows of one category that survive normalization and the
remote-known check, in fetch order. -/
def catAccepted (existing : List Str) (cat : Str) (ps : List RawProduct) : List Row :=
  (ps.filterMap (fun p => product_to_row p (some cat))).filter
    (fun r => decide (r.barcode ∉ existing))

/-- The stream of rows accepted by the fetch loop, in first-accepted
order: normalized successfully and not in the remote-known set. -/
def acceptedStream (existing : List Str) (limit : Nat)
    (fetch : Str → Nat → List RawProduct) : List Row :=
  CATEGORIES.flatMap (fun cat => catAccepted existing cat (fetch cat (per_cat limit)))

/-- `r` is the row at the first position of its barcode in `l`. -/
def FirstOcc (l : List Row) (r : Row) : Prop :=
  ∃ n, l[n]? = some r ∧ ∀ x ∈ l.take n, x.barcode ≠ r.barcode

/-- Number of records of one category rejected by normalization. -/
def rejectedIn (cat : Str) (ps : List RawProduct) : Nat :=
  (ps.filter (fun p => (product_to_row p (some cat)).isNone)).length

/-- Total number of fetched records rejected by normalization in a run. -/
def rejectedCount (limit : Nat) (fetch : Str → Nat → List RawProduct) : Nat :=
  (CATEGORIES.map (fun c => rejectedIn c (fetch c (per_cat limit)))).sum

/-- Sum of the per-category `new` counters over the category list. -/
def sumNew (f : Str → Stats) : Nat := (CATEGORIES.map (fun c => (f c).new)).sum

/-- Sum of the per-category `skip` counters over the category list. -/
def sumSkip (f : Str → Stats) : Nat := (CATEGORIES.map (fun c => (f c).skip)).sum

/-- Sum of the per-category `imported` counters over the category list. -/
def sumImported (f : Str → Stats) : Nat := (CATEGORIES.map (fun c => (f c).imported)).sum

/-- The identifier-validity predicate as the specification states it:
after trimming, the candidate consists of exactly 8 digits or exactly
12 to 14 digits. -/
def ValidIdentifier (t : Str) : Prop :=
  (∀ c ∈ t, c.isDigit) ∧ (t.length = 8 ∨ (12 ≤ t.length ∧ t.length ≤ 14))

/-- The corrected name-resolution cascade, stated from the amended claim:
a candidate name field is selected when it is a non-empty string (Python
truthiness); only then it is trimmed, and if the trim result is empty the
resolution falls directly to the first category tag (humanized) or the
placeholder, without consulting the remaining name field. -/
def nameSpec (p : RawProduct) : Str :=
  let fallback :=
    match p.categories_tags with
    | [] => ("Unbenanntes Produkt" : String).toList
    | t :: _ =>
      if humanizeTag t = [] then ("Unbenanntes Produkt" : String).toList else humanizeTag t
  if truthy p.product_name_de then
    (if strip (p.product_name_de.getD []) = [] then fallback
     else strip (p.product_name_de.getD []))
  else if truthy p.product_name then
    (if strip (p.product_name.getD []) = [] then fallback
     else strip (p.product_name.getD []))
  else fallback

/-- The bookkeeping invariant relating the aggregate counters, the
per-category counters and the number `R` of records rejected by
normalization so far: `new` and `imported` agree with the per-category
sums, while the aggregate `skip` is short of the per-category sum by
exactly `R`. -/
def InvP (t : Stats) (f : Str → Stats) (R : Nat) : Prop :=
  t.new = sumNew f ∧ t.imported = sumImported f ∧ t.skip + R = sumSkip f

/-! ### Concrete fixtures used by witnesses and counterexamples -/

/-- A raw record with a valid 8-digit identifier. -/
def wApfel : RawProduct :=
  ⟨some ("Apfel" : String).toList, none, [], some ("40123456" : String).toList,
   none, none, none⟩

/-- A second raw record with the same valid identifier as `wApfel`. -/
def wBirne : RawProduct :=
  ⟨some ("Birne" : String).toList, none, [], some ("40123456" : String).toList,
   none, none, none⟩

/-- A raw record whose identifier has an invalid format. -/
def wKaputt : RawProduct :=
  ⟨some ("Kaputt" : String).toList, none, [], some ("123" : String).toList,
   none, none, none⟩

/-- A raw record whose only name source is a category tag with trailing
whitespace. -/
def wTagged : RawProduct :=
  ⟨none, none, [("a " : String).toList], none, none, none, none⟩

/-- A remote oracle that rejects every POST with an HTTP error. -/
def failApi : Remote := ⟨fun _ _ => none, fun _ _ _ => false, 1, 1⟩

/-- A remote oracle that creates every product with id 1 but rejects
every barcode association with an HTTP error. -/
def orphanApi : Remote := ⟨fun _ _ => some 1, fun _ _ _ => false, 1, 1⟩

/-- A concrete canonical row. -/
def wRow : Row :=
  ⟨("Apfel" : String).toList, ("40123456" : String).toList, [], [], [],
   ("Obst" : String).toList⟩

/-- A fetch oracle returning the duplicate pair for the category Obst. -/
def wFetchDup : Str → Nat → List RawProduct :=
  fun c _ => if c = ("Obst" : String).toList then [wApfel, wBirne] else []

/-- A fetch oracle returning one invalid-identifier record for Obst. -/
def wFetchInvalid : Str → Nat → List RawProduct :=
  fun c _ => if c = ("Obst" : String).toList then [wKaputt] else []

/-- A canonical row sharing the identifier of `wRow`. -/
def wRowDup : Row :=
  ⟨("Birne" : String).toList, ("40123456" : String).toList, [], [], [],
   ("Obst" : String).toList⟩

/-- A row with an empty identifier. -/
def wRowEmpty : Row :=
  ⟨("X" : String).toList, [], [], [], [], ("Obst" : String).toList⟩

/-! ### Lemmas about `dedupe` -/

lemma dedupeAux_sublist (seen : List Str) (l : List Row) :
    (dedupeAux seen l).Sublist l := by
  induction l generalizing seen with
  | nil => simp [dedupeAux]
  | cons x xs ih =>
    simp only [dedupeAux]
    split
    · exact (ih _).cons₂ x
    · exact (ih _).trans (List.sublist_cons_self x xs)

lemma dedupe_sublist (l : List Row) : (dedupe l).Sublist l := dedupeAux_sublist [] l

lemma mem_dedupeAux (seen : List Str) (l : List Row) (r : Row) :
    r ∈ dedupeAux seen l ↔ r.barcode ≠ [] ∧ r.barcode ∉ seen ∧ FirstOcc l r := by
  induction l generalizing seen with
  | nil => simp [dedupeAux, FirstOcc]
  | cons x xs ih =>
    simp only [dedupeAux]
    split
    case isTrue hx =>
      constructor
      · intro hmem
        rcases List.mem_cons.mp hmem with heq | hmem
        · subst heq
          exact ⟨hx.1, hx.2, 0, by simp, by simp⟩
        · obtain ⟨hbc, hns, n, hget, hbefore⟩ := (ih _).mp hmem
          have hxne : x.barcode ≠ r.barcode := by
            intro h
            exact hns (by simp [h])
          refine ⟨hbc, fun hm => hns (List.mem_cons_of_mem _ hm), n + 1, by simpa using hget, ?_⟩
          intro y hy
          rw [List.take_succ_cons] at hy
          rcases List.mem_cons.mp hy with rfl | hy
          · exact hxne
          · exact hbefore y hy
      · rintro ⟨hbc, hns, n, hget, hbefore⟩
        cases n with
        | zero =>
          rw [List.getElem?_cons_zero] at hget
          injection hget with hget
          subst hget
          exact List.mem_cons_self _ _
        | succ m =>
          rw [List.getElem?_cons_succ] at hget
          have hxr : x.barcode ≠ r.barcode := by
            have := hbefore x (by rw [List.take_succ_cons]; exact List.mem_cons_self _ _)
            exact this
          refine List.mem_cons_of_mem _ ((ih _).mpr ⟨hbc, ?_, m, hget, ?_⟩)
          · intro hm
            rcases List.mem_cons.mp hm with hm | hm
            · exact hxr hm.symm
            · exact hns hm
          · intro y hy
            exact hbefore y (by rw [List.take_succ_cons]; exact List.mem_cons_of_mem _ hy)
    case isFalse hx =>
      rw [ih]
      have hx' : x.barcode = [] ∨ x.barcode ∈ seen := by
        by_cases h1 : x.barcode = []
        · exact Or.inl h1
        · exact Or.inr (by
            by_contra h2
            exact hx ⟨h1, h2⟩)
      constructor
      · rintro ⟨hbc, hns, n, hget, hbefore⟩
        have hxr : x.barcode ≠ r.barcode := by
          rcases hx' with h | h
          · rw [h]; exact fun hh => hbc hh.symm
          · intro hh; exact hns (hh ▸ h)
        refine ⟨hbc, hns, n + 1, by simpa using hget, ?_⟩
        intro y hy
        rw [List.take_succ_cons] at hy
        rcases List.mem_cons.mp hy with rfl | hy
        · exact hxr
        · exact hbefore y hy
      · rintro ⟨hbc, hns, n, hget, hbefore⟩
        cases n with
        | zero =>
          rw [List.getElem?_cons_zero] at hget
          injection hget with hget
          subst hget
          rcases hx' with h | h
          · exact absurd h hbc
          · exact absurd h hns
        | succ m =>
          rw [List.getElem?_cons_succ] at hget
          refine ⟨hbc, hns, m, hget, ?_⟩
          intro y hy
          exact hbefore y (by rw [List.take_succ_cons]; exact List.mem_cons_of_mem _ hy)

lemma mem_dedupe (l : List Row) (r : Row) :
    r ∈ dedupe l ↔ r.barcode ≠ [] ∧ FirstOcc l r := by
  simpa using mem_dedupeAux [] l r

lemma dedupeAux_barcodes (seen : List Str) (l : List Row) :
    ((dedupeAux seen l).map (fun r => r.barcode)).Nodup ∧
      ∀ b ∈ (dedupeAux seen l).map (fun r => r.barcode), b ∉ seen := by
  induction l generalizing seen with
  | nil => simp [dedupeAux]
  | cons x xs ih =>
    simp only [dedupeAux]
    split
    case isTrue hx =>
      obtain ⟨hnd, hsub⟩ := ih (x.barcode :: seen)
      refine ⟨?_, ?_⟩
      · simp only [List.map_cons, List.nodup_cons]
        exact ⟨fun hmem => (hsub _ hmem) (List.mem_cons_self _ _), hnd⟩
      · intro b hb
        simp only [List.map_cons, List.mem_cons] at hb
        rcases hb with rfl | hb
        · exact hx.2
        · exact fun hbs => (hsub b hb) (List.mem_cons_of_mem _ hbs)
    case isFalse hx => exact ih seen

lemma dedupe_barcodes_nodup (l : List Row) :
    ((dedupe l).map (fun r => r.barcode)).Nodup :=
  (dedupeAux_barcodes [] l).1

/-! ### Closed forms for the fetch phase -/

lemma foldl_processProduct_all_rows (existing : List Str) (cat : Str)
    (ps : List RawProduct) (s : RunState) :
    (ps.foldl (fun s p => processProduct existing cat p s) s).all_rows
      = s.all_rows ++ catAccepted existing cat ps := by
  induction ps generalizing s with
  | nil => simp [catAccepted]
  | cons p ps ih =>
    rw [List.foldl_cons, ih]
    unfold processProduct
    cases hpt : product_to_row p (some cat) with
    | none => simp [catAccepted, List.filterMap_cons, hpt]
    | some r =>
      by_cases hmem : r.barcode ∈ existing <;>
        simp [catAccepted, List.filterMap_cons, hpt, hmem, List.filter_cons]

lemma foldl_processProduct_new (existing : List Str) (cat : Str)
    (ps : List RawProduct) (s : RunState) :
    (ps.foldl (fun s p => processProduct existing cat p s) s).statsTotal.new
      = s.statsTotal.new + (catAccepted existing cat ps).length := by
  induction ps generalizing s with
  | nil => simp [catAccepted]
  | cons p ps ih =>
    rw [List.foldl_cons, ih]
    unfold processProduct
    cases hpt : product_to_row p (some cat) with
    | none => simp [catAccepted, List.filterMap_cons, hpt]
    | some r =>
      by_cases hmem : r.barcode ∈ existing
      all_goals simp [catAccepted, List.filterMap_cons, hpt, hmem, List.filter_cons]
      all_goals omega

lemma foldl_processCategory_all_rows (existing : List Str) (limit : Nat)
    (fetch : Str → Nat → List RawProduct) (cats : List Str) (s : RunState) :
    (cats.foldl (processCategory existing limit fetch) s).all_rows
      = s.all_rows
        ++ cats.flatMap (fun cat => catAccepted existing cat (fetch cat (per_cat limit))) := by
  induction cats generalizing s with
  | nil => simp
  | cons c cs ih =>
    rw [List.foldl_cons, ih]
    rw [show processCategory existing limit fetch s c
          = (fetch c (per_cat limit)).foldl (fun s p => processProduct existing c p s) s from rfl]
    rw [foldl_processProduct_all_rows]
    simp [List.flatMap_cons]

lemma foldl_processCategory_new (existing : List Str) (limit : Nat)
    (fetch : Str → Nat → List RawProduct) (cats : List Str) (s : RunState) :
    (cats.foldl (processCategory existing limit fetch) s).statsTotal.new
      = s.statsTotal.new
        + (cats.flatMap (fun cat => catAccepted existing cat (fetch cat (per_cat limit)))).length := by
  induction cats generalizing s with
  | nil => simp
  | cons c cs ih =>
    rw [List.foldl_cons, ih]
    rw [show processCategory existing limit fetch s c
          = (fetch c (per_cat limit)).foldl (fun s p => processProduct existing c p s) s from rfl]
    rw [foldl_processProduct_new]
    simp [List.flatMap_cons]
    omega

lemma fetchPhase_all_rows (existing : List Str) (limit : Nat)
    (fetch : Str → Nat → List RawProduct) :
    (fetchPhase existing limit fetch).all_rows = acceptedStream existing limit fetch := by
  unfold fetchPhase acceptedStream
  rw [foldl_processCategory_all_rows]
  simp

lemma fetchPhase_new (existing : List Str) (limit : Nat)
    (fetch : Str → Nat → List RawProduct) :
    (fetchPhase existing limit fetch).statsTotal.new
      = (acceptedStream existing limit fetch).length := by
  unfold fetchPhase acceptedStream
  rw [foldl_processCategory_new]
  simp [Stats.zero]

/-! ### The import phase touches only the imported counters -/

lemma importRows_new_skip (api : Remote) (rows : List Row) (st : RemoteState)
    (total : Stats) (cats : Str → Stats) :
    (importRows api rows st total cats).2.1.new = total.new ∧
    (importRows api rows st total cats).2.1.skip = total.skip ∧
    ∀ c, ((importRows api rows st total cats).2.2 c).new = (cats c).new ∧
         ((importRows api rows st total cats).2.2 c).skip = (cats c).skip := by
  induction rows generalizing st total cats with
  | nil => simp [importRows]
  | cons r rs ih =>
    simp only [importRows]
    split
    · obtain ⟨h1, h2, h3⟩ := ih (create_product api st r).1
        { total with imported := total.imported + 1 }
        (updateCat cats r.cat (fun t => { t with imported := t.imported + 1 }))
      refine ⟨by simpa using h1, by simpa using h2, fun c => ?_⟩
      obtain ⟨h4, h5⟩ := h3 c
      rw [h4, h5]
      unfold updateCat
      constructor <;> (split <;> rfl)
    · exact ih (create_product api st r).1 total cats

/-! ### Projections of `runMain` -/

lemma runMain_finalRows (existing : List Str) (limit : Nat)
    (fetch : Str → Nat → List RawProduct) (doImport : Bool)
    (api : Remote) (init : RemoteState) :
    (runMain existing limit fetch doImport api init).finalRows
      = (dedupe (acceptedStream existing limit fetch)).take limit := by
  simp only [runMain]
  rw [fetchPhase_all_rows]
  split <;> rfl

lemma runMain_new (existing : List Str) (limit : Nat)
    (fetch : Str → Nat → List RawProduct) (doImport : Bool)
    (api : Remote) (init : RemoteState) :
    (runMain existing limit fetch doImport api init).statsTotal.new
      = (acceptedStream existing limit fetch).length := by
  simp only [runMain]
  split
  · exact (importRows_new_skip _ _ _ _ _).1.trans (fetchPhase_new existing limit fetch)
  · exact fetchPhase_new existing limit fetch

/-! ### Facts about the category list and accepted rows -/

lemma categories_nodup : CATEGORIES.Nodup := by decide

lemma categories_ne_nil : ∀ c ∈ CATEGORIES, c ≠ [] := by decide

lemma ne_nil_of_matches (t : Str) (h : matchesBarcodeRe t = true) : t ≠ [] := by
  rintro rfl
  simp [matchesBarcodeRe] at h

lemma product_to_row_barcode_ne_nil (p : RawProduct) (c : Option Str) (r : Row)
    (h : product_to_row p c = some r) : r.barcode ≠ [] := by
  unfold product_to_row at h
  split at h
  case isTrue hv =>
    injection h with h
    subst h
    cases hc : p.code with
    | none => rw [hc] at hv; simp [valid_barcode] at hv
    | some s =>
      rw [hc] at hv
      simp only [valid_barcode, Bool.and_eq_true] at hv
      exact ne_nil_of_matches _ hv.2
  case isFalse => cases h

lemma product_to_row_cat (p : RawProduct) (c : Str) (r : Row) (hc : c ≠ [])
    (h : product_to_row p (some c) = some r) : r.cat = c := by
  unfold product_to_row at h
  split at h
  · injection h with h
    subst h
    simp [List.isEmpty_iff, hc]
  · cases h

lemma mem_acceptedStream (existing : List Str) (limit : Nat)
    (fetch : Str → Nat → List RawProduct) (r : Row) :
    r ∈ acceptedStream existing limit fetch ↔
      ∃ cat ∈ CATEGORIES,
        (∃ p ∈ fetch cat (per_cat limit), product_to_row p (some cat) = some r)
          ∧ r.barcode ∉ existing := by
  unfold acceptedStream catAccepted
  simp only [List.mem_flatMap, List.mem_filter, List.mem_filterMap, decide_eq_true_eq]
  try tauto

lemma mem_acceptedStream_cat (existing : List Str) (limit : Nat)
    (fetch : Str → Nat → List RawProduct) (r : Row)
    (h : r ∈ acceptedStream existing limit fetch) : r.cat ∈ CATEGORIES := by
  obtain ⟨cat, hcat, ⟨p, _, hpt⟩, -⟩ := (mem_acceptedStream existing limit fetch r).mp h
  rw [product_to_row_cat p cat r (categories_ne_nil cat hcat) hpt]
  exact hcat

lemma mem_acceptedStream_barcode_ne_nil (existing : List Str) (limit : Nat)
    (fetch : Str → Nat → List RawProduct) (r : Row)
    (h : r ∈ acceptedStream existing limit fetch) : r.barcode ≠ [] := by
  obtain ⟨cat, -, ⟨p, -, hpt⟩, -⟩ := (mem_acceptedStream existing limit fetch r).mp h
  exact product_to_row_barcode_ne_nil p (some cat) r hpt

/-! ### Facts about `normalize_name` -/

lemma ite_placeholder_ne_nil (s : Str) :
    (if s.isEmpty then ("Unbenanntes Produkt" : String).toList else s) ≠ [] := by
  split
  · decide
  · rename_i h
    intro hn
    exact h (by simp [hn])

lemma normalize_name_ne_nil (p : RawProduct) : normalize_name p ≠ [] := by
  simp only [normalize_name]
  exact ite_placeholder_ne_nil _

lemma normalize_name_eq_nameSpec (p : RawProduct) : normalize_name p = nameSpec p := by
  simp only [normalize_name, nameSpec, firstTruthy]
  by_cases h1 : truthy p.product_name_de = true <;>
    by_cases h2 : truthy p.product_name = true <;>
      cases htags : p.categories_tags <;>
        simp [h1, h2, htags, List.isEmpty_iff, strip] <;>
          split <;> simp_all [List.isEmpty_iff]

/-! ### Counter sums over the category list -/

lemma sum_map_ite_add (l : List Str) (hl : l.Nodup) (h : Str → Nat) (c : Str)
    (hc : c ∈ l) (d : Nat) :
    (l.map (fun x => if x = c then h x + d else h x)).sum = (l.map h).sum + d := by
  induction l with
  | nil => cases hc
  | cons a as ih =>
    by_cases hac : a = c
    · subst hac
      have hnotin : a ∉ as := (List.nodup_cons.mp hl).1
      have hrest : as.map (fun x => if x = a then h x + d else h x) = as.map h :=
        List.map_congr_left (fun x hx => by
          have hxa : x ≠ a := fun hh => hnotin (hh ▸ hx)
          simp [hxa])
      simp [hrest]
      omega
    · have hc2 : c ∈ as := (List.mem_cons.mp hc).resolve_left (fun hh => hac hh.symm)
      simp only [List.map_cons, List.sum_cons, if_neg hac]
      rw [ih (List.nodup_cons.mp hl).2 hc2]
      omega

lemma sums_updateCat_skip (f : Str → Stats) (c : Str) (hc : c ∈ CATEGORIES) :
    sumSkip (updateCat f c (fun t => { t with skip := t.skip + 1 })) = sumSkip f + 1 ∧
    sumNew (updateCat f c (fun t => { t with skip := t.skip + 1 })) = sumNew f ∧
    sumImported (updateCat f c (fun t => { t with skip := t.skip + 1 })) = sumImported f := by
  unfold sumSkip sumNew sumImported updateCat
  refine ⟨?_, ?_, ?_⟩
  · rw [← sum_map_ite_add CATEGORIES categories_nodup (fun x => (f x).skip) c hc 1]
    exact congrArg _ (List.map_congr_left (fun x _ => by by_cases hx : x = c <;> simp [hx]))
  · exact congrArg _ (List.map_congr_left (fun x _ => by by_cases hx : x = c <;> simp [hx]))
  · exact congrArg _ (List.map_congr_left (fun x _ => by by_cases hx : x = c <;> simp [hx]))

lemma sums_updateCat_new (f : Str → Stats) (c : Str) (hc : c ∈ CATEGORIES) :
    sumNew (updateCat f c (fun t => { t with new := t.new + 1 })) = sumNew f + 1 ∧
    sumSkip (updateCat f c (fun t => { t with new := t.new + 1 })) = sumSkip f ∧
    sumImported (updateCat f c (fun t => { t with new := t.new + 1 })) = sumImported f := by
  unfold sumSkip sumNew sumImported updateCat
  refine ⟨?_, ?_, ?_⟩
  · rw [← sum_map_ite_add CATEGORIES categories_nodup (fun x => (f x).new) c hc 1]
    exact congrArg _ (List.map_congr_left (fun x _ => by by_cases hx : x = c <;> simp [hx]))
  · exact congrArg _ (List.map_congr_left (fun x _ => by by_cases hx : x = c <;> simp [hx]))
  · exact congrArg _ (List.map_congr_left (fun x _ => by by_cases hx : x = c <;> simp [hx]))

lemma sums_updateCat_imported (f : Str → Stats) (c : Str) (hc : c ∈ CATEGORIES) :
    sumImported (updateCat f c (fun t => { t with imported := t.imported + 1 })) = sumImported f + 1 ∧
    sumNew (updateCat f c (fun t => { t with imported := t.imported + 1 })) = sumNew f ∧
    sumSkip (updateCat f c (fun t => { t with imported := t.imported + 1 })) = sumSkip f := by
  unfold sumSkip sumNew sumImported updateCat
  refine ⟨?_, ?_, ?_⟩
  · rw [← sum_map_ite_add CATEGORIES categories_nodup (fun x => (f x).imported) c hc 1]
    exact congrArg _ (List.map_congr_left (fun x _ => by by_cases hx : x = c <;> simp [hx]))
  · exact congrArg _ (List.map_congr_left (fun x _ => by by_cases hx : x = c <;> simp [hx]))
  · exact congrArg _ (List.map_congr_left (fun x _ => by by_cases hx : x = c <;> simp [hx]))

lemma invP_processProduct (existing : List Str) (cat : Str) (p : RawProduct)
    (s : RunState) (R : Nat) (hcat : cat ∈ CATEGORIES)
    (h : InvP s.statsTotal s.statsCat R) :
    InvP (processProduct existing cat p s).statsTotal
      (processProduct existing cat p s).statsCat
      (R + (if (product_to_row p (some cat)).isNone then 1 else 0)) := by
  obtain ⟨hn, hi, hs⟩ := h
  unfold processProduct
  cases hpt : product_to_row p (some cat) with
  | none =>
    obtain ⟨u1, u2, u3⟩ := sums_updateCat_skip s.statsCat cat hcat
    refine ⟨?_, ?_, ?_⟩
    · simpa [u2] using hn
    · simpa [u3] using hi
    · simp [u1]
      omega
  | some r =>
    by_cases hmem : r.barcode ∈ existing
    · obtain ⟨u1, u2, u3⟩ := sums_updateCat_skip s.statsCat cat hcat
      refine ⟨?_, ?_, ?_⟩
      · simpa [hmem, u2] using hn
      · simpa [hmem, u3] using hi
      · simp [hmem, u1]
        omega
    · obtain ⟨u1, u2, u3⟩ := sums_updateCat_new s.statsCat cat hcat
      refine ⟨?_, ?_, ?_⟩
      · simp [hmem, u1]
        omega
      · simpa [hmem, u3] using hi
      · simp [hmem, u2]
        omega

lemma invP_foldl_products (existing : List Str) (cat : Str) (ps : List RawProduct)
    (s : RunState) (R : Nat) (hcat : cat ∈ CATEGORIES)
    (h : InvP s.statsTotal s.statsCat R) :
    InvP (ps.foldl (fun s p => processProduct existing cat p s) s).statsTotal
      (ps.foldl (fun s p => processProduct existing cat p s) s).statsCat
      (R + rejectedIn cat ps) := by
  induction ps generalizing s R with
  | nil => simpa [rejectedIn] using h
  | cons p ps ih =>
    rw [List.foldl_cons]
    have hstep := invP_processProduct existing cat p s R hcat h
    have := ih (processProduct existing cat p s)
      (R + (if (product_to_row p (some cat)).isNone then 1 else 0)) hstep
    have harr : R + (if (product_to_row p (some cat)).isNone then 1 else 0) + rejectedIn cat ps
        = R + rejectedIn cat (p :: ps) := by
      unfold rejectedIn
      rw [List.filter_cons]
      split
      all_goals simp
      all_goals omega
    rwa [harr] at this

lemma invP_foldl_cats (existing : List Str) (limit : Nat)
    (fetch : Str → Nat → List RawProduct) (cats : List Str)
    (hsub : ∀ c ∈ cats, c ∈ CATEGORIES) (s : RunState) (R : Nat)
    (h : InvP s.statsTotal s.statsCat R) :
    InvP (cats.foldl (processCategory existing limit fetch) s).statsTotal
      (cats.foldl (processCategory existing limit fetch) s).statsCat
      (R + (cats.map (fun c => rejectedIn c (fetch c (per_cat limit)))).sum) := by
  induction cats generalizing s R with
  | nil => simpa using h
  | cons c cs ih =>
    rw [List.foldl_cons]
    have hstep := invP_foldl_products existing c (fetch c (per_cat limit)) s R
      (hsub c (List.mem_cons_self _ _)) h
    have := ih (fun x hx => hsub x (List.mem_cons_of_mem _ hx))
      (processCategory existing limit fetch s c)
      (R + rejectedIn c (fetch c (per_cat limit))) hstep
    have harr : R + rejectedIn c (fetch c (per_cat limit))
          + (cs.map (fun x => rejectedIn x (fetch x (per_cat limit)))).sum
        = R + ((c :: cs).map (fun x => rejectedIn x (fetch x (per_cat limit)))).sum := by
      simp
      omega
    rwa [harr] at this

lemma invP_fetchPhase (existing : List Str) (limit : Nat)
    (fetch : Str → Nat → List RawProduct) :
    InvP (fetchPhase existing limit fetch).statsTotal
      (fetchPhase existing limit fetch).statsCat
      (rejectedCount limit fetch) := by
  have hbase : InvP Stats.zero (fun _ => Stats.zero) 0 := by
    refine ⟨?_, ?_, ?_⟩ <;> simp [Stats.zero, sumNew, sumImported, sumSkip]
  have := invP_foldl_cats existing limit fetch CATEGORIES (fun c hc => hc)
    ⟨Stats.zero, fun _ => Stats.zero, []⟩ 0 hbase
  simpa [fetchPhase, rejectedCount] using this

lemma invP_importRows (api : Remote) (rows : List Row) (st : RemoteState)
    (total : Stats) (cats : Str → Stats) (R : Nat)
    (hrows : ∀ r ∈ rows, r.cat ∈ CATEGORIES) (h : InvP total cats R) :
    InvP (importRows api rows st total cats).2.1
      (importRows api rows st total cats).2.2 R := by
  induction rows generalizing st total cats with
  | nil => simpa [importRows] using h
  | cons r rs ih =>
    simp only [importRows]
    split
    · obtain ⟨hn, hi, hs⟩ := h
      obtain ⟨u1, u2, u3⟩ := sums_updateCat_imported cats r.cat
        (hrows r (List.mem_cons_self _ _))
      exact ih _ _ _ (fun x hx => hrows x (List.mem_cons_of_mem _ hx))
        ⟨by simpa [u2] using hn, by simp [u1]; omega, by simpa [u3] using hs⟩
    · exact ih _ _ _ (fun x hx => hrows x (List.mem_cons_of_mem _ hx)) h

lemma invP_runMain (existing : List Str) (limit : Nat)
    (fetch : Str → Nat → List RawProduct) (doImport : Bool)
    (api : Remote) (init : RemoteState) :
    InvP (runMain existing limit fetch doImport api init).statsTotal
      (runMain existing limit fetch doImport api init).statsCat
      (rejectedCount limit fetch) := by
  simp only [runMain]
  split
  · refine invP_importRows api _ init _ _ _ (fun r hr => ?_) (invP_fetchPhase existing limit fetch)
    have hr2 : r ∈ acceptedStream existing limit fetch := by
      have h1 : r ∈ dedupe (fetchPhase existing limit fetch).all_rows :=
        (List.take_sublist _ _).mem hr
      have h2 := (dedupe_sublist _).mem h1
      rwa [fetchPhase_all_rows] at h2
    exact mem_acceptedStream_cat existing limit fetch r hr2
  · exact invP_fetchPhase existing limit fetch

/-! ## Claim theorems -/

/-- Claim C1: for every run with global limit `limit`, the final
accepted-and-written row list is the truncation to `limit` of the
deduplication of the accepted stream; its length never exceeds `limit`;
it is a sublist of the accepted stream, so truncation keeps
first-accepted order; every final row is valid (an image of
`product_to_row` on a fetched record), not remote-known, and the first
occurrence of its identifier in the run; no identifier appears twice;
and membership in the deduplicated stream is exactly being a valid first
occurrence. -/
theorem C1_final_rows (existing : List Str) (limit : Nat)
    (fetch : Str → Nat → List RawProduct) (doImport : Bool)
    (api : Remote) (init : RemoteState) :
    (runMain existing limit fetch doImport api init).finalRows
        = (dedupe (acceptedStream existing limit fetch)).take limit ∧
    (runMain existing limit fetch doImport api init).finalRows.length ≤ limit ∧
    (runMain existing limit fetch doImport api init).finalRows.Sublist
        (acceptedStream existing limit fetch) ∧
    (∀ r ∈ (runMain existing limit fetch doImport api init).finalRows,
        r.barcode ∉ existing ∧
        (∃ cat ∈ CATEGORIES, ∃ p ∈ fetch cat (per_cat limit),
            product_to_row p (some cat) = some r) ∧
        FirstOcc (acceptedStream existing limit fetch) r) ∧
    ((runMain existing limit fetch doImport api init).finalRows.map
        (fun r => r.barcode)).Nodup ∧
    (∀ r, r ∈ dedupe (acceptedStream existing limit fetch) ↔
        r.barcode ≠ [] ∧ FirstOcc (acceptedStream existing limit fetch) r) := by
  have hfr := runMain_finalRows existing limit fetch doImport api init
  refine ⟨hfr, ?_, ?_, ?_, ?_, fun r => mem_dedupe _ r⟩
  · rw [hfr, List.length_take]
    exact min_le_left _ _
  · rw [hfr]
    exact (List.take_sublist _ _).trans (dedupe_sublist _)
  · intro r hr
    rw [hfr] at hr
    have hd : r ∈ dedupe (acceptedStream existing limit fetch) :=
      (List.take_sublist _ _).mem hr
    have hacc : r ∈ acceptedStream existing limit fetch := (dedupe_sublist _).mem hd
    obtain ⟨cat, hcat, ⟨p, hp, hpt⟩, hnotin⟩ :=
      (mem_acceptedStream existing limit fetch r).mp hacc
    exact ⟨hnotin, ⟨cat, hcat, p, hp, hpt⟩, ((mem_dedupe _ r).mp hd).2⟩
  · rw [hfr]
    exact List.Nodup.sublist ((List.take_sublist _ _).map _) (dedupe_barcodes_nodup _)

/-- Witness for C1 at a concrete run with limit 1. -/
theorem C1_final_rows_witness :
    (runMain [] 1 wFetchDup false failApi ⟨[], []⟩).finalRows.length ≤ 1 :=
  (C1_final_rows [] 1 wFetchDup false failApi ⟨[], []⟩).2.1

/-- Claim C2: `valid_barcode` accepts exactly the candidates that are
present and whose trimmed value is 8 or 12 to 14 digits, returning a
Bool (never raising); a record with a rejected identifier is discarded
by `product_to_row`, which returns `none`. -/
theorem C2_identifier_validation (i : Option Str) (p : RawProduct) (c : Option Str) :
    (valid_barcode i = true ↔ ∃ s, i = some s ∧ ValidIdentifier (strip s)) ∧
    (valid_barcode p.code = false → product_to_row p c = none) := by
  constructor
  · cases i with
    | none => simp [valid_barcode]
    | some s =>
      simp only [valid_barcode, Bool.and_eq_true, Option.some.injEq]
      constructor
      · rintro ⟨h1, h2⟩
        refine ⟨s, rfl, ?_⟩
        simp only [matchesBarcodeRe, Bool.and_eq_true, List.all_eq_true,
          decide_eq_true_eq] at h2
        exact ⟨h2.1, h2.2⟩
      · rintro ⟨s2, heq, hv⟩
        cases heq
        have hsne : s ≠ [] := by
          rintro rfl
          rcases hv.2 with h8 | h12
          · exact (by decide : (strip ([] : Str)).length ≠ 8) h8
          · exact absurd h12.1 (by decide)
        constructor
        · cases s with
          | nil => exact absurd rfl hsne
          | cons a l => rfl
        · simp only [matchesBarcodeRe, Bool.and_eq_true, List.all_eq_true,
            decide_eq_true_eq]
          exact ⟨hv.1, hv.2⟩
  · intro h
    simp [product_to_row, h]

/-- Witness for C2: a padded valid identifier is accepted; the record
with identifier 123 is discarded by normalization. -/
theorem C2_identifier_validation_witness :
    valid_barcode (some (" 40123456 " : String).toList) = true ∧
    product_to_row wKaputt none = none :=
  ⟨(C2_identifier_validation (some (" 40123456 " : String).toList) wKaputt none).1.mpr
      ⟨(" 40123456 " : String).toList, rfl, by unfold ValidIdentifier; decide⟩,
   (C2_identifier_validation (some (" 40123456 " : String).toList) wKaputt none).2
      (by decide)⟩

/-- Counterexample to claim C3: a whitespace-only localized name is
truthy, so it is selected and trims to empty, and resolution falls to
the placeholder even though the generic name Apfel is non-empty — the
generic name is not chosen. -/
theorem C3_whitespace_name_cex :
    normalize_name ⟨some (" " : String).toList, some ("Apfel" : String).toList, [],
        none, none, none, none⟩
      = ("Unbenanntes Produkt" : String).toList ∧
    strip (" " : String).toList = [] ∧
    ("Apfel" : String).toList ≠ [] ∧
    ("Unbenanntes Produkt" : String).toList ≠ ("Apfel" : String).toList := by decide

/-- Claim C3 as amended: the resolved name follows the cascade
localized name, generic name, humanized first category tag, placeholder,
where a name field is selected when it is non-empty before trimming
(Python truthiness); a selected field that trims to empty falls directly
to the tag/placeholder stage, skipping the remaining name field. -/
theorem C3_name_resolution (p : RawProduct) : normalize_name p = nameSpec p :=
  normalize_name_eq_nameSpec p

/-- Claim C4: deduplication preserves relative order (sublist), keeps at
most one row per identifier, never emits a row with an empty identifier,
and the retained row for each identifier is the first one bearing it. -/
theorem C4_dedupe (rows : List Row) :
    (dedupe rows).Sublist rows ∧
    ((dedupe rows).map (fun r => r.barcode)).Nodup ∧
    (∀ r, r ∈ dedupe rows ↔ r.barcode ≠ [] ∧ FirstOcc rows r) :=
  ⟨dedupe_sublist rows, dedupe_barcodes_nodup rows, fun r => mem_dedupe rows r⟩

/-- Witness for C4 on a concrete list with a duplicate identifier and an
empty-identifier row. -/
theorem C4_dedupe_witness :
    ((dedupe [wRow, wRowDup, wRowEmpty]).map (fun r => r.barcode)).Nodup ∧
    wRowEmpty ∉ dedupe [wRow, wRowDup, wRowEmpty] :=
  ⟨(C4_dedupe [wRow, wRowDup, wRowEmpty]).2.1,
   fun hmem =>
     (((C4_dedupe [wRow, wRowDup, wRowEmpty]).2.2 wRowEmpty).mp hmem).1 rfl⟩

/-- Counterexample to claim C5: two fetched records with the same valid,
not-remote-known identifier; the second is not rejected when processed —
both increment the per-category and aggregate new counters (new = 2)
even though only one row survives to the final output. -/
theorem C5_duplicate_counted_cex :
    (runMain [] 200 wFetchDup false failApi ⟨[], []⟩).statsTotal.new = 2 ∧
    ((runMain [] 200 wFetchDup false failApi ⟨[], []⟩).statsCat
        (("Obst" : String).toList)).new = 2 ∧
    (runMain [] 200 wFetchDup false failApi ⟨[], []⟩).finalRows.length = 1 := by
  decide

/-- Claim C5 as amended: a within-run duplicate is accepted at intake
and counted as new (the aggregate new counter equals the length of the
accepted stream, duplicate occurrences included); it is removed only by
the end-of-run deduplication, so the final written set never carries the
same identifier twice. -/
theorem C5_duplicate_removed_at_end (existing : List Str) (limit : Nat)
    (fetch : Str → Nat → List RawProduct) (doImport : Bool)
    (api : Remote) (init : RemoteState) :
    ((runMain existing limit fetch doImport api init).finalRows.map
        (fun r => r.barcode)).Nodup ∧
    (runMain existing limit fetch doImport api init).statsTotal.new
      = (acceptedStream existing limit fetch).length := by
  constructor
  · rw [runMain_finalRows]
    exact List.Nodup.sublist ((List.take_sublist _ _).map _) (dedupe_barcodes_nodup _)
  · exact runMain_new existing limit fetch doImport api init

/-- Counterexample to claim C6: one record rejected for invalid
identifier format is counted as skipped in its category's counter but
not in the aggregate skipped counter, so the aggregate does not equal
the sum of the per-category counters. -/
theorem C6_skip_aggregate_cex :
    ((runMain [] 200 wFetchInvalid false failApi ⟨[], []⟩).statsCat
        (("Obst" : String).toList)).skip = 1 ∧
    (runMain [] 200 wFetchInvalid false failApi ⟨[], []⟩).statsTotal.skip = 0 ∧
    (runMain [] 200 wFetchInvalid false failApi ⟨[], []⟩).statsTotal.skip
      ≠ sumSkip (runMain [] 200 wFetchInvalid false failApi ⟨[], []⟩).statsCat := by
  decide

/-- Claim C6 as amended: at the end of every run the aggregate new and
imported counters equal the sums of the per-category counters, while the
aggregate skipped counter falls short of the per-category sum by exactly
the number of records rejected for invalid identifier format (those are
counted per category only; the aggregate counts only already-known
skips). -/
theorem C6_counter_sums (existing : List Str) (limit : Nat)
    (fetch : Str → Nat → List RawProduct) (doImport : Bool)
    (api : Remote) (init : RemoteState) :
    (runMain existing limit fetch doImport api init).statsTotal.new
        = sumNew (runMain existing limit fetch doImport api init).statsCat ∧
    (runMain existing limit fetch doImport api init).statsTotal.imported
        = sumImported (runMain existing limit fetch doImport api init).statsCat ∧
    (runMain existing limit fetch doImport api init).statsTotal.skip
        + rejectedCount limit fetch
        = sumSkip (runMain existing limit fetch doImport api init).statsCat :=
  invP_runMain existing limit fetch doImport api init

/-- Claim C7: a creation failure (remote rejection caught as an HTTP
error) is signalled by the failure value `none`, the orchestrator leaves
the imported counters untouched for that row, and the import loop
continues with the remaining rows — the run is not aborted. -/
theorem C7_create_failure_continues (api : Remote) (st : RemoteState) (r : Row)
    (rest : List Row) (total : Stats) (cats : Str → Stats)
    (hfail : (create_product api st r).2 = none) :
    importRows api (r :: rest) st total cats
      = importRows api rest (create_product api st r).1 total cats := by
  simp [importRows, hfail, pidTruthy]

/-- Witness for C7 with an always-rejecting remote. -/
theorem C7_create_failure_continues_witness :
    importRows failApi [wRow] ⟨[], []⟩ Stats.zero (fun _ => Stats.zero)
      = importRows failApi [] (create_product failApi ⟨[], []⟩ wRow).1 Stats.zero
          (fun _ => Stats.zero) :=
  C7_create_failure_continues failApi ⟨[], []⟩ wRow [] Stats.zero
    (fun _ => Stats.zero) rfl

/-- Claim C8: the per-category requested count is
`max(10, limit // 13)`, 13 is the length of the fixed category list, and
no category is ever requested with fewer than 10 results. -/
theorem C8_per_category_share (L : Nat) :
    per_cat L = max 10 (L / 13) ∧ CATEGORIES.length = 13 ∧ 10 ≤ per_cat L :=
  ⟨rfl, rfl, le_max_left _ _⟩

/-- Counterexample to claim C9: a record whose only name source is the
category tag with a trailing space resolves to an untrimmed name; feeding
that name back through name resolution trims it, so the result differs. -/
theorem C9_idempotence_cex :
    normalize_name ⟨some (normalize_name wTagged), none, [], none, none, none, none⟩
      ≠ normalize_name wTagged := by decide

/-- Claim C9 as amended: name resolution is idempotent on every record
whose resolved name is already whitespace-trimmed (which covers every
name produced by the localized/generic/placeholder paths; only the
category-tag path can produce surrounding whitespace). -/
theorem C9_idempotent_on_trimmed (p : RawProduct)
    (h : strip (normalize_name p) = normalize_name p) :
    normalize_name ⟨some (normalize_name p), none, [], none, none, none, none⟩
      = normalize_name p := by
  have hne := normalize_name_ne_nil p
  set r := normalize_name p with hr
  have hie : r.isEmpty = false := by
    cases hrv : r with
    | nil => exact absurd hrv hne
    | cons a l => rfl
  simp [normalize_name, firstTruthy, truthy, hie, h]

/-- Witness for C9 as amended, at a record with a trimmed name. -/
theorem C9_idempotent_on_trimmed_witness :
    normalize_name ⟨some (normalize_name wApfel), none, [], none, none, none, none⟩
      = normalize_name wApfel :=
  C9_idempotent_on_trimmed wApfel (by decide)

/-- Claim C10: when the product-creation POST succeeds and the
subsequent barcode-association POST fails with an HTTP error,
`create_product` returns `none` while the remote state keeps the newly
created (now orphaned) product entity, and the orchestrator leaves the
imported counters untouched and continues. -/
theorem C10_orphaned_product (api : Remote) (st : RemoteState) (r : Row) (pid : Nat)
    (h1 : api.postProductOutcome st (productPayload api r) = some pid)
    (h2 : api.postBarcodeOutcome
        { st with products := st.products ++ [(pid, productPayload api r)] } pid r.barcode
        = false) :
    create_product api st r
      = ({ st with products := st.products ++ [(pid, productPayload api r)] }, none) ∧
    ∀ rest total cats,
      importRows api (r :: rest) st total cats
        = importRows api rest
            { st with products := st.products ++ [(pid, productPayload api r)] }
            total cats := by
  have hcp : create_product api st r
      = ({ st with products := st.products ++ [(pid, productPayload api r)] }, none) := by
    unfold create_product postProduct postBarcode
    rw [h1]
    simp [h2]
  refine ⟨hcp, fun rest total cats => ?_⟩
  simp [importRows, hcp, pidTruthy]

/-- Witness for C10 with a remote that accepts products and rejects
barcode associations. -/
theorem C10_orphaned_product_witness :
    create_product orphanApi ⟨[], []⟩ wRow
      = (⟨[(1, productPayload orphanApi wRow)], []⟩, none) := by
  have h := (C10_orphaned_product orphanApi ⟨[], []⟩ wRow 1 rfl rfl).1
  simpa using h

end GrocyImport
